import Mathlib

/-!
Shallow embedding of src/barbershop.py (sleeping-barber simulation).

The Python program runs three kinds of threads — one barber, one customer
generator and a transient thread per customer — that communicate through a
single lock-protected ShopState plus two counting semaphores
(customers_sem, barber_sem) and one stop event.  Every mutation of the
shared state happens inside a `with state.lock:` block, so the program is
embedded as a labelled transition system whose atomic steps are exactly
those locked blocks together with the individual semaphore/event
operations; the states of the transition system are therefore exactly the
states observable while the lock is not held.

Two history fields (admissionOrder, dequeueOrder) record the order in
which customers were appended to the queue and popped from it; they are
write-only ghost data and influence no transition.
-/

/-- Barber status field of the Python ShopState; the source stores the two
strings "sleeping" and "cutting". -/
inductive BarberStatus
  | sleeping
  | cutting
deriving DecidableEq

/-- Embedding of the Python class ShopState (src/barbershop.py lines 15-31):
configuration fields plus the dynamic fields protected by the lock.
Durations and timestamps are modelled as exact rationals / abstract clock
readings. -/
structure ShopState where
  capacity : Nat
  cut_time : ℚ
  arrival_speed : Nat
  waiting : List Nat
  served : Nat
  left : Nat
  barber_status : BarberStatus
  current_customer : Option Nat
  haircut_start_time : Option Nat
deriving DecidableEq

/-- ShopState.__init__: configuration is taken from the arguments, dynamic
state starts empty with the barber sleeping and arrival speed 3. -/
def ShopState.init (capacity : Nat) (cut_time : ℚ) : ShopState where
  capacity := capacity
  cut_time := cut_time
  arrival_speed := 3
  waiting := []
  served := 0
  left := 0
  barber_status := .sleeping
  current_customer := none
  haircut_start_time := none

/-- Program counter of one customer thread (customer_worker, lines 83-106):
about to run the locked admission block; admitted but not yet having
released customers_sem; blocked on barber_sem; terminated. -/
inductive CustomerPC
  | atAdmission
  | admittedPreSignal
  | waitingForReady
  | done
deriving DecidableEq

/-- Program counter of the barber thread (barber_worker, lines 39-78):
at the top of the loop; having acquired one unit of customers_sem but not
yet run the locked dequeue block; mid-haircut for a given customer id
(between the dequeue block and the finish block). -/
inductive BarberPC
  | atLoop
  | acquiredSignal
  | midCut (cid : Nat)
deriving DecidableEq

/-- Whole-system state: the shared ShopState, the two counting semaphores,
the stop event, the barber thread's program counter, the customer threads
(id paired with program counter, in spawn order), the generator's id
counter (itertools.count(1)), an abstract monotonic clock, and two ghost
history lists. -/
structure Sys where
  shop : ShopState
  customers_sem : Nat
  barber_sem : Nat
  stop_event : Bool
  barberPC : BarberPC
  customers : List (Nat × CustomerPC)
  nextId : Nat
  clock : Nat
  admissionOrder : List Nat
  dequeueOrder : List Nat
deriving DecidableEq

/-- Initial system state: fresh ShopState, both semaphores at 0, stop event
clear, barber at its loop top, no customers spawned, id counter at 1. -/
def initSys (capacity : Nat) (cut_time : ℚ) : Sys where
  shop := ShopState.init capacity cut_time
  customers_sem := 0
  barber_sem := 0
  stop_event := false
  barberPC := .atLoop
  customers := []
  nextId := 1
  clock := 0
  admissionOrder := []
  dequeueOrder := []

/-- Program counter of the first customer thread with the given id (the id
counter never repeats, so there is at most one). -/
def custPC : List (Nat × CustomerPC) → Nat → Option CustomerPC
  | [], _ => none
  | (d, p) :: rest, c => if d = c then some p else custPC rest c

/-- Replace the program counter of the first customer thread with the given
id. -/
def setPC : List (Nat × CustomerPC) → Nat → CustomerPC → List (Nat × CustomerPC)
  | [], _, _ => []
  | (d, q) :: rest, c, p => if d = c then (d, p) :: rest else (d, q) :: setPC rest c p

/-- Number of customer threads currently at a given program counter. -/
def countPC : List (Nat × CustomerPC) → CustomerPC → Nat
  | [], _ => 0
  | (_, q) :: rest, p => (if q = p then 1 else 0) + countPC rest p

/-- One when the barber is mid-haircut, zero otherwise. -/
def midCutFlag : BarberPC → Nat
  | .midCut _ => 1
  | _ => 0

/-- Locked admission block of customer_worker (lines 87-93): if the queue
is shorter than capacity the customer id is appended and the customer is
admitted, otherwise `left` is incremented and the customer is rejected.
Returns the updated shop and the `admitted` flag. -/
def customerAdmission (shop : ShopState) (cid : Nat) : ShopState × Bool :=
  if shop.waiting.length < shop.capacity then
    ({ shop with waiting := shop.waiting ++ [cid] }, true)
  else
    ({ shop with left := shop.left + 1 }, false)

/-- Locked finish block of barber_worker (lines 72-78): if current_customer
still equals the id just served, clear current_customer and
haircut_start_time, increment served, and set the status to sleeping when
nobody is waiting and to cutting otherwise; on a mismatch nothing at all
happens. -/
def finishCut (shop : ShopState) (cid : Nat) : ShopState :=
  if shop.current_customer = some cid then
    { shop with
      current_customer := none
      haircut_start_time := none
      served := shop.served + 1
      barber_status := if shop.waiting.isEmpty then .sleeping else .cutting }
  else shop

/-- Locked timeout block of barber_worker (lines 46-48): after a timed-out
semaphore wait, set the status to sleeping when the queue is empty and the
barber is not cutting. -/
def barberTimeoutUpdate (shop : ShopState) : ShopState :=
  if shop.waiting.isEmpty ∧ shop.barber_status ≠ .cutting then
    { shop with barber_status := .sleeping }
  else shop

/-- Atomic actions of the transition system: each is one locked block, one
semaphore operation, one event operation, a thread spawn, or a clock tick.
setSpeed is the external speed control of the UI layer (keys 1-5), and
raiseStop the external shutdown request. -/
inductive Act
  | spawn
  | admission (c : Nat)
  | signalArrival (c : Nat)
  | customerAcquireReady (c : Nat)
  | customerStop (c : Nat)
  | barberTimeout
  | barberAcquire
  | barberDequeue
  | barberFinish
  | setSpeed (k : Nat)
  | raiseStop
  | tick
deriving DecidableEq

/-- Guarded effect of one atomic action; none when the action is not
enabled in the given state.

spawn: generator_worker (lines 116-128) checks the stop event and starts a
customer thread with the next id.  admission: the locked block of
customer_worker; an admitted customer moves on to release customers_sem, a
rejected one terminates at once.  signalArrival: customers_sem.release()
(line 99).  customerAcquireReady: barber_sem.acquire succeeds (line 103)
and the customer terminates.  customerStop: the customer's wait loop
observes the stop event and terminates (line 102).  barberTimeout: the
barber's customers_sem.acquire times out with no pending signal (lines
43-49).  barberAcquire: customers_sem.acquire succeeds (line 43).
barberDequeue: the locked block of lines 52-62 — pop the front customer,
mark cutting, record the start time and release barber_sem, or do nothing
on a spurious wake with an empty queue.  barberFinish: the haircut sleep
ends (or is cut short by shutdown) and the locked finish block of lines
72-78 runs.  setSpeed/raiseStop: the UI writes arrival_speed under the
lock (line 210) / sets the stop event (line 216).  tick: the monotonic
clock advances. -/
def applyAction : Act → Sys → Option Sys
  | .spawn, s =>
    if s.stop_event then none
    else some { s with
      customers := s.customers ++ [(s.nextId, .atAdmission)]
      nextId := s.nextId + 1 }
  | .admission c, s =>
    if custPC s.customers c = some .atAdmission then
      some { s with
        shop := (customerAdmission s.shop c).1
        customers := setPC s.customers c
          (if (customerAdmission s.shop c).2 then .admittedPreSignal else .done)
        admissionOrder :=
          if (customerAdmission s.shop c).2 then s.admissionOrder ++ [c]
          else s.admissionOrder }
    else none
  | .signalArrival c, s =>
    if custPC s.customers c = some .admittedPreSignal then
      some { s with
        customers_sem := s.customers_sem + 1
        customers := setPC s.customers c .waitingForReady }
    else none
  | .customerAcquireReady c, s =>
    if custPC s.customers c = some .waitingForReady ∧ 0 < s.barber_sem then
      some { s with
        barber_sem := s.barber_sem - 1
        customers := setPC s.customers c .done }
    else none
  | .customerStop c, s =>
    if custPC s.customers c = some .waitingForReady ∧ s.stop_event = true then
      some { s with customers := setPC s.customers c .done }
    else none
  | .barberTimeout, s =>
    if s.barberPC = .atLoop ∧ s.stop_event = false ∧ s.customers_sem = 0 then
      some { s with shop := barberTimeoutUpdate s.shop }
    else none
  | .barberAcquire, s =>
    if s.barberPC = .atLoop ∧ s.stop_event = false ∧ 0 < s.customers_sem then
      some { s with
        customers_sem := s.customers_sem - 1
        barberPC := .acquiredSignal }
    else none
  | .barberDequeue, s =>
    if s.barberPC = .acquiredSignal then
      match s.shop.waiting with
      | [] => some { s with barberPC := .atLoop }
      | cid :: rest =>
        some { s with
          shop := { s.shop with
            waiting := rest
            barber_status := .cutting
            current_customer := some cid
            haircut_start_time := some s.clock }
          barber_sem := s.barber_sem + 1
          barberPC := .midCut cid
          dequeueOrder := s.dequeueOrder ++ [cid] }
    else none
  | .barberFinish, s =>
    match s.barberPC with
    | .midCut cid => some { s with shop := finishCut s.shop cid, barberPC := .atLoop }
    | _ => none
  | .setSpeed k, s =>
    if 1 ≤ k ∧ k ≤ 5 then
      some { s with shop := { s.shop with arrival_speed := k } }
    else none
  | .raiseStop, s => some { s with stop_event := true }
  | .tick, s => some { s with clock := s.clock + 1 }

/-- Execute a list of atomic actions in order; none as soon as one of them
is not enabled. -/
def run : List Act → Sys → Option Sys
  | [], s => some s
  | a :: acts, s =>
    match applyAction a s with
    | some s2 => run acts s2
    | none => none

/-- A system state is reachable for a given configuration when some
interleaving of atomic actions leads to it from the initial state. -/
def Reaches (capacity : Nat) (cut_time : ℚ) (s : Sys) : Prop :=
  ∃ acts, run acts (initSys capacity cut_time) = some s

/-- Fixed speed lookup table of generator_worker (line 111):
speed_to_interval = 1 ↦ 2.0, 2 ↦ 1.0, 3 ↦ 0.6, 4 ↦ 0.4, 5 ↦ 0.25. -/
def speed_to_interval : List (Nat × ℚ) :=
  [(1, 2), (2, 1), (3, 3 / 5), (4, 2 / 5), (5, 1 / 4)]

/-- Total lookup in an association table of rationals. -/
def lookupRat : List (Nat × ℚ) → Nat → Option ℚ
  | [], _ => none
  | (k, v) :: rest, speed => if k = speed then some v else lookupRat rest speed

/-- Interval chosen by the generator for a speed value:
speed_to_interval.get(speed, 0.6) (line 119). -/
def intervalFor (speed : Nat) : ℚ :=
  (lookupRat speed_to_interval speed).getD (3 / 5)

/-- Interval the generator will use on its next tick in a given system
state: it re-reads arrival_speed under the lock each iteration
(lines 117-119). -/
def genTickInterval (s : Sys) : ℚ :=
  intervalFor s.shop.arrival_speed

/-- Number of admission attempts (locked check-and-append blocks) in an
action list. -/
def admissionCount : List Act → Nat
  | [] => 0
  | .admission _ :: acts => admissionCount acts + 1
  | _ :: acts => admissionCount acts

/-- Entire effect of a rejected customer on the system: `left` is
incremented and the customer terminates; the queue, both counters, the
barber fields, the configuration fields and both semaphores are untouched,
and the arrival signal of the rejected customer can never fire. -/
def rejectionFrame (s s2 : Sys) (c : Nat) : Prop :=
  s2.shop.left = s.shop.left + 1 ∧
  s2.shop.waiting = s.shop.waiting ∧
  s2.shop.served = s.shop.served ∧
  s2.shop.barber_status = s.shop.barber_status ∧
  s2.shop.current_customer = s.shop.current_customer ∧
  s2.shop.haircut_start_time = s.shop.haircut_start_time ∧
  s2.shop.capacity = s.shop.capacity ∧
  s2.shop.cut_time = s.shop.cut_time ∧
  s2.shop.arrival_speed = s.shop.arrival_speed ∧
  s2.customers_sem = s.customers_sem ∧
  s2.barber_sem = s.barber_sem ∧
  custPC s2.customers c = some CustomerPC.done ∧
  applyAction (.signalArrival c) s2 = none

/-- Concrete run for the capacity-bound witness: one customer spawned and
admitted under the default configuration. -/
def c1acts : List Act := [.spawn, .admission 1]

/-- State reached by c1acts from the default configuration. -/
def c1sys : Sys := (run c1acts (initSys 5 (8 / 5))).getD (initSys 5 (8 / 5))

/-- Concrete run for the rejection-correctness witness: capacity 1, two
customers spawned and both deciding admission, the barber never dequeuing. -/
def c2acts : List Act := [.spawn, .spawn, .admission 1, .admission 2]

/-- State reached by c2acts from a capacity-1 shop. -/
def c2sys : Sys := (run c2acts (initSys 1 1)).getD (initSys 1 1)

/-- Concrete run for the conservation counterexample: a customer is
admitted and signals, then shutdown is raised and the customer's wait loop
exits; the customer thread is terminal but counted in neither served nor
left. -/
def c3acts : List Act :=
  [.spawn, .admission 1, .signalArrival 1, .raiseStop, .customerStop 1]

/-- State reached by c3acts from a capacity-1 shop. -/
def c3sys : Sys := (run c3acts (initSys 1 1)).getD (initSys 1 1)

/-- Concrete run for the amended-conservation witness: capacity 1, one
customer served to completion and one rejected. -/
def c3wacts : List Act :=
  [.spawn, .spawn, .admission 1, .admission 2, .signalArrival 1,
   .barberAcquire, .barberDequeue, .barberFinish, .customerAcquireReady 1]

/-- State reached by c3wacts from a capacity-1 shop. -/
def c3wsys : Sys := (run c3wacts (initSys 1 1)).getD (initSys 1 1)

/-- Concrete run for the status/current-customer counterexample: with a
second customer still waiting, the barber finishes the first haircut,
leaving barber_status = cutting with current_customer = none at a
lock-released point. -/
def c4acts : List Act :=
  [.spawn, .spawn, .admission 1, .admission 2, .signalArrival 1,
   .barberAcquire, .barberDequeue, .barberFinish]

/-- State reached by c4acts from a capacity-2 shop. -/
def c4sys : Sys := (run c4acts (initSys 2 1)).getD (initSys 2 1)

/-- Concrete run for the amended C4 witness: a haircut in progress. -/
def c4wacts : List Act :=
  [.spawn, .admission 1, .signalArrival 1, .barberAcquire, .barberDequeue]

/-- State reached by c4wacts from a capacity-2 shop. -/
def c4wsys : Sys := (run c4wacts (initSys 2 1)).getD (initSys 2 1)

/-- Concrete run for the FIFO witness: two customers admitted in order and
both served to completion. -/
def c5acts : List Act :=
  [.spawn, .spawn, .admission 1, .admission 2, .signalArrival 1, .signalArrival 2,
   .barberAcquire, .barberDequeue, .barberFinish,
   .barberAcquire, .barberDequeue, .barberFinish]

/-- State reached by c5acts from a capacity-2 shop. -/
def c5sys : Sys := (run c5acts (initSys 2 1)).getD (initSys 2 1)

/-- Concrete shop mid-haircut of customer 7 with customer 8 waiting, for
the finish-block witness. -/
def c6shop : ShopState :=
  { ShopState.init 3 2 with
    barber_status := .cutting
    current_customer := some 7
    haircut_start_time := some 0
    waiting := [8] }

/-- State after the UI sets speed level 5 in the initial state, for the
speed-table witness. -/
def c7sys2 : Sys := (applyAction (.setSpeed 5) (initSys 1 1)).getD (initSys 1 1)

/-- Concrete state in which the barber holds an acquired signal but the
queue is empty (a spurious wakeup). -/
def c8sys : Sys := { initSys 1 1 with barberPC := .acquiredSignal }

/-- Concrete zero-capacity state with one spawned customer, for the
rejection-frame witness. -/
def c10sys : Sys := (run [.spawn] (initSys 0 1)).getD (initSys 0 1)

/-- State after the admission block rejects customer 1 in c10sys. -/
def c10sys2 : Sys := (applyAction (.admission 1) c10sys).getD c10sys

/-! Helper lemmas about the customer-thread list. -/

theorem setPC_length (cs : List (Nat × CustomerPC)) (c : Nat) (p : CustomerPC) :
    (setPC cs c p).length = cs.length := by
  induction cs with
  | nil => rfl
  | cons hd tl ih =>
    obtain ⟨d, q⟩ := hd
    by_cases h : d = c <;> simp [setPC, h, ih]

theorem setPC_map_fst (cs : List (Nat × CustomerPC)) (c : Nat) (p : CustomerPC) :
    (setPC cs c p).map Prod.fst = cs.map Prod.fst := by
  induction cs with
  | nil => rfl
  | cons hd tl ih =>
    obtain ⟨d, q⟩ := hd
    by_cases h : d = c <;> simp [setPC, h, ih]

theorem custPC_setPC_self (cs : List (Nat × CustomerPC)) (c : Nat) (p q : CustomerPC)
    (h : custPC cs c = some p) : custPC (setPC cs c q) c = some q := by
  induction cs with
  | nil => simp [custPC] at h
  | cons hd tl ih =>
    obtain ⟨d, r⟩ := hd
    by_cases hd : d = c
    · simp [custPC, setPC, hd]
    · simp [custPC, setPC, hd] at h ⊢
      exact ih h

theorem custPC_setPC_other (cs : List (Nat × CustomerPC)) (c d : Nat) (q : CustomerPC)
    (h : d ≠ c) : custPC (setPC cs c q) d = custPC cs d := by
  induction cs with
  | nil => rfl
  | cons hd tl ih =>
    obtain ⟨e, r⟩ := hd
    by_cases he : e = c
    · have hed : e ≠ d := fun hh => h (by rw [← hh, he])
      simp [custPC, setPC, he, hed, Ne.symm h]
    · by_cases hed : e = d <;> simp [custPC, setPC, he, hed, ih, h]

theorem countPC_setPC (cs : List (Nat × CustomerPC)) (c : Nat) (p q r : CustomerPC)
    (h : custPC cs c = some p) :
    countPC (setPC cs c q) r + (if p = r then 1 else 0)
      = countPC cs r + (if q = r then 1 else 0) := by
  induction cs with
  | nil => simp [custPC] at h
  | cons hd tl ih =>
    obtain ⟨d, pc0⟩ := hd
    by_cases hd : d = c
    · simp [custPC, hd] at h
      subst h
      simp [setPC, hd, countPC]
      omega
    · simp [custPC, hd] at h
      have := ih h
      simp [setPC, hd, countPC]
      omega

theorem custPC_mem (cs : List (Nat × CustomerPC)) (c : Nat) (p : CustomerPC)
    (h : custPC cs c = some p) : c ∈ cs.map Prod.fst := by
  induction cs with
  | nil => simp [custPC] at h
  | cons hd tl ih =>
    obtain ⟨d, q⟩ := hd
    by_cases hd : d = c
    · simp [hd]
    · simp [custPC, hd] at h
      simp [ih h]

theorem custPC_append_some (cs l : List (Nat × CustomerPC)) (c : Nat) (p : CustomerPC)
    (h : custPC cs c = some p) : custPC (cs ++ l) c = some p := by
  induction cs with
  | nil => simp [custPC] at h
  | cons hd tl ih =>
    obtain ⟨d, q⟩ := hd
    by_cases hd : d = c <;> simp [custPC, hd] at h ⊢
    · exact h
    · exact ih h

theorem custPC_append_none (cs l : List (Nat × CustomerPC)) (c : Nat)
    (h : custPC cs c = none) : custPC (cs ++ l) c = custPC l c := by
  induction cs with
  | nil => rfl
  | cons hd tl ih =>
    obtain ⟨d, q⟩ := hd
    by_cases hd : d = c <;> simp [custPC, hd] at h ⊢
    exact ih h

theorem countPC_append (cs l : List (Nat × CustomerPC)) (p : CustomerPC) :
    countPC (cs ++ l) p = countPC cs p + countPC l p := by
  induction cs with
  | nil => simp [countPC]
  | cons hd tl ih =>
    obtain ⟨d, q⟩ := hd
    simp [countPC, ih]
    omega

theorem countPC_eq_zero (cs : List (Nat × CustomerPC)) (p : CustomerPC)
    (h : ∀ x ∈ cs, x.2 ≠ p) : countPC cs p = 0 := by
  induction cs with
  | nil => rfl
  | cons hd tl ih =>
    obtain ⟨d, q⟩ := hd
    have h1 : q ≠ p := h (d, q) (by simp)
    simp [countPC, h1]
    exact ih fun x hx => h x (by simp [hx])

/-- Inductive invariant of the transition system, covering the spec's
documented state invariants plus the bookkeeping facts needed to prove
them: queue bound, current-customer versus status, the barber's
mid-cut id always matching current_customer, customer conservation,
the ghost admission order being the ghost dequeue order followed by the
live queue, and freshness/uniqueness of customer ids. -/
structure SysInv (s : Sys) : Prop where
  cap_bound : s.shop.waiting.length ≤ s.shop.capacity
  cur_cutting : ∀ c, s.shop.current_customer = some c → s.shop.barber_status = .cutting
  midcut_cur : ∀ cid, s.barberPC = .midCut cid → s.shop.current_customer = some cid
  conservation : s.customers.length =
    countPC s.customers .atAdmission + s.shop.left + s.shop.waiting.length
      + midCutFlag s.barberPC + s.shop.served
  adm_eq : s.admissionOrder = s.dequeueOrder ++ s.shop.waiting
  adm_nodup : s.admissionOrder.Nodup
  adm_lt : ∀ x ∈ s.admissionOrder, x < s.nextId
  atadm_not : ∀ c, custPC s.customers c = some .atAdmission → c ∉ s.admissionOrder
  ids_nodup : (s.customers.map Prod.fst).Nodup
  ids_lt : ∀ x ∈ s.customers.map Prod.fst, x < s.nextId

theorem sysInv_initSys (capacity : Nat) (cut_time : ℚ) : SysInv (initSys capacity cut_time) := by
  refine ⟨?_, ?_, ?_, ?_, ?_, ?_, ?_, ?_, ?_, ?_⟩ <;>
    simp [initSys, ShopState.init, countPC, midCutFlag, custPC]

theorem sysInv_tick (s s2 : Sys) (h : applyAction .tick s = some s2) (inv : SysInv s) : SysInv s2 := by
  obtain ⟨c1, c2, c3, c4, c5, c6, c7, c8, c9, c10⟩ := inv
  simp [applyAction] at h
  subst h
  exact ⟨c1, c2, c3, c4, c5, c6, c7, c8, c9, c10⟩

theorem sysInv_raiseStop (s s2 : Sys) (h : applyAction .raiseStop s = some s2) (inv : SysInv s) :
    SysInv s2 := by
  obtain ⟨c1, c2, c3, c4, c5, c6, c7, c8, c9, c10⟩ := inv
  simp [applyAction] at h
  subst h
  exact ⟨c1, c2, c3, c4, c5, c6, c7, c8, c9, c10⟩

theorem sysInv_setSpeed (k : Nat) (s s2 : Sys) (h : applyAction (.setSpeed k) s = some s2)
    (inv : SysInv s) : SysInv s2 := by
  obtain ⟨c1, c2, c3, c4, c5, c6, c7, c8, c9, c10⟩ := inv
  by_cases hk : 1 ≤ k ∧ k ≤ 5
  · simp [applyAction, hk] at h
    subst h
    exact ⟨c1, c2, c3, c4, c5, c6, c7, c8, c9, c10⟩
  · simp [applyAction, hk] at h

theorem sysInv_barberAcquire (s s2 : Sys) (h : applyAction .barberAcquire s = some s2)
    (inv : SysInv s) : SysInv s2 := by
  obtain ⟨c1, c2, c3, c4, c5, c6, c7, c8, c9, c10⟩ := inv
  by_cases hg : s.barberPC = .atLoop ∧ s.stop_event = false ∧ 0 < s.customers_sem
  · simp [applyAction, hg] at h
    subst h
    refine ⟨c1, c2, ?_, ?_, c5, c6, c7, c8, c9, c10⟩
    · intro cid hcid
      simp at hcid
    · simpa [midCutFlag, hg.1] using c4
  · simp [applyAction, hg] at h

theorem sysInv_spawn (s s2 : Sys) (h : applyAction .spawn s = some s2) (inv : SysInv s) :
    SysInv s2 := by
  obtain ⟨c1, c2, c3, c4, c5, c6, c7, c8, c9, c10⟩ := inv
  by_cases hs : s.stop_event
  · simp [applyAction, hs] at h
  · simp [applyAction, hs] at h
    subst h
    refine ⟨c1, c2, c3, ?_, c5, c6, ?_, ?_, ?_, ?_⟩
    · simp [countPC_append, countPC]
      omega
    · intro x hx
      exact Nat.lt_succ_of_lt (c7 x hx)
    · intro d hd
      rcases hcc : custPC s.customers d with _ | p
      · rw [custPC_append_none s.customers _ d hcc] at hd
        simp [custPC] at hd
        intro hmem
        have := c7 d hmem
        omega
      · rw [custPC_append_some s.customers _ d p hcc] at hd
        rw [hd] at hcc
        exact c8 d hcc
    · rw [List.map_append]
      refine c9.append (by simp) ?_
      intro a ha hb
      simp at hb
      subst hb
      have := c10 _ ha
      omega
    · intro x hx
      rw [List.map_append] at hx
      rcases List.mem_append.mp hx with hx | hx
      · exact Nat.lt_succ_of_lt (c10 x hx)
      · simp at hx
        subst hx
        exact Nat.lt_succ_self _

theorem sysInv_admission (c : Nat) (s s2 : Sys)
    (h : applyAction (.admission c) s = some s2) (inv : SysInv s) : SysInv s2 := by
  obtain ⟨c1, c2, c3, c4, c5, c6, c7, c8, c9, c10⟩ := inv
  by_cases hc : custPC s.customers c = some .atAdmission
  · by_cases hlen : s.shop.waiting.length < s.shop.capacity
    · simp [applyAction, hc, customerAdmission, hlen] at h
      subst h
      refine ⟨?_, c2, c3, ?_, ?_, ?_, ?_, ?_, ?_, ?_⟩
      · simp
        omega
      · have hcount := countPC_setPC s.customers c .atAdmission .admittedPreSignal .atAdmission hc
        simp at hcount
        simp [setPC_length]
        omega
      · rw [c5]
        simp
      · refine c6.append (by simp) ?_
        intro a ha hac
        simp at hac
        subst hac
        exact absurd ha (c8 a hc)
      · intro x hx
        simp at hx
        rcases hx with hx | hx
        · exact c7 x hx
        · exact hx ▸ c10 c (custPC_mem s.customers c _ hc)
      · intro d hd
        by_cases hdc : d = c
        · subst hdc
          rw [custPC_setPC_self s.customers d .atAdmission .admittedPreSignal hc] at hd
          simp at hd
        · rw [custPC_setPC_other s.customers c d .admittedPreSignal hdc] at hd
          simp [List.mem_append, hdc]
          exact c8 d hd
      · simpa [setPC_map_fst] using c9
      · simpa [setPC_map_fst] using c10
    · simp [applyAction, hc, customerAdmission, hlen] at h
      subst h
      refine ⟨c1, c2, c3, ?_, c5, c6, c7, ?_, ?_, ?_⟩
      · have hcount := countPC_setPC s.customers c .atAdmission .done .atAdmission hc
        simp at hcount
        simp [setPC_length]
        omega
      · intro d hd
        by_cases hdc : d = c
        · subst hdc
          rw [custPC_setPC_self s.customers d .atAdmission .done hc] at hd
          simp at hd
        · rw [custPC_setPC_other s.customers c d .done hdc] at hd
          exact c8 d hd
      · simpa [setPC_map_fst] using c9
      · simpa [setPC_map_fst] using c10
  · simp [applyAction, hc] at h

theorem sysInv_signalArrival (c : Nat) (s s2 : Sys)
    (h : applyAction (.signalArrival c) s = some s2) (inv : SysInv s) : SysInv s2 := by
  obtain ⟨c1, c2, c3, c4, c5, c6, c7, c8, c9, c10⟩ := inv
  by_cases hc : custPC s.customers c = some .admittedPreSignal
  · simp [applyAction, hc] at h
    subst h
    refine ⟨c1, c2, c3, ?_, c5, c6, c7, ?_, ?_, ?_⟩
    · have hcount := countPC_setPC s.customers c .admittedPreSignal .waitingForReady .atAdmission hc
      simp at hcount
      simp [setPC_length]
      omega
    · intro d hd
      by_cases hdc : d = c
      · subst hdc
        rw [custPC_setPC_self s.customers d .admittedPreSignal .waitingForReady hc] at hd
        simp at hd
      · rw [custPC_setPC_other s.customers c d .waitingForReady hdc] at hd
        exact c8 d hd
    · simpa [setPC_map_fst] using c9
    · simpa [setPC_map_fst] using c10
  · simp [applyAction, hc] at h

theorem sysInv_customerAcquireReady (c : Nat) (s s2 : Sys)
    (h : applyAction (.customerAcquireReady c) s = some s2) (inv : SysInv s) : SysInv s2 := by
  obtain ⟨c1, c2, c3, c4, c5, c6, c7, c8, c9, c10⟩ := inv
  by_cases hc : custPC s.customers c = some .waitingForReady ∧ 0 < s.barber_sem
  · simp [applyAction, hc] at h
    subst h
    refine ⟨c1, c2, c3, ?_, c5, c6, c7, ?_, ?_, ?_⟩
    · have hcount := countPC_setPC s.customers c .waitingForReady .done .atAdmission hc.1
      simp at hcount
      simp [setPC_length]
      omega
    · intro d hd
      by_cases hdc : d = c
      · subst hdc
        rw [custPC_setPC_self s.customers d .waitingForReady .done hc.1] at hd
        simp at hd
      · rw [custPC_setPC_other s.customers c d .done hdc] at hd
        exact c8 d hd
    · simpa [setPC_map_fst] using c9
    · simpa [setPC_map_fst] using c10
  · simp [applyAction, hc] at h

theorem sysInv_customerStop (c : Nat) (s s2 : Sys)
    (h : applyAction (.customerStop c) s = some s2) (inv : SysInv s) : SysInv s2 := by
  obtain ⟨c1, c2, c3, c4, c5, c6, c7, c8, c9, c10⟩ := inv
  by_cases hc : custPC s.customers c = some .waitingForReady ∧ s.stop_event = true
  · simp [applyAction, hc] at h
    subst h
    refine ⟨c1, c2, c3, ?_, c5, c6, c7, ?_, ?_, ?_⟩
    · have hcount := countPC_setPC s.customers c .waitingForReady .done .atAdmission hc.1
      simp at hcount
      simp [setPC_length]
      omega
    · intro d hd
      by_cases hdc : d = c
      · subst hdc
        rw [custPC_setPC_self s.customers d .waitingForReady .done hc.1] at hd
        simp at hd
      · rw [custPC_setPC_other s.customers c d .done hdc] at hd
        exact c8 d hd
    · simpa [setPC_map_fst] using c9
    · simpa [setPC_map_fst] using c10
  · simp [applyAction, hc] at h

theorem sysInv_barberTimeout (s s2 : Sys) (h : applyAction .barberTimeout s = some s2)
    (inv : SysInv s) : SysInv s2 := by
  obtain ⟨c1, c2, c3, c4, c5, c6, c7, c8, c9, c10⟩ := inv
  by_cases hg : s.barberPC = .atLoop ∧ s.stop_event = false ∧ s.customers_sem = 0
  · simp [applyAction, hg] at h
    subst h
    by_cases hb : s.shop.waiting = [] ∧ ¬s.shop.barber_status = .cutting
    · refine ⟨?_, ?_, ?_, ?_, ?_, c6, c7, c8, c9, c10⟩
      · simp [barberTimeoutUpdate, hb]
      · intro c hc
        simp [barberTimeoutUpdate, hb] at hc
        exact absurd (c2 c hc) hb.2
      · intro cid hcid
        simp [hg.1] at hcid
      · simpa [barberTimeoutUpdate, hb, hg.1, midCutFlag] using c4
      · simpa [barberTimeoutUpdate, hb] using c5
    · refine ⟨?_, ?_, ?_, ?_, ?_, c6, c7, c8, c9, c10⟩
      · simpa [barberTimeoutUpdate, hb] using c1
      · intro c hc
        simp [barberTimeoutUpdate, hb] at hc ⊢
        exact c2 c hc
      · intro cid hcid
        simp [hg.1] at hcid
      · simpa [barberTimeoutUpdate, hb, hg.1, midCutFlag] using c4
      · simpa [barberTimeoutUpdate, hb] using c5
  · simp [applyAction, hg] at h

theorem sysInv_barberDequeue (s s2 : Sys) (h : applyAction .barberDequeue s = some s2)
    (inv : SysInv s) : SysInv s2 := by
  obtain ⟨c1, c2, c3, c4, c5, c6, c7, c8, c9, c10⟩ := inv
  by_cases hg : s.barberPC = .acquiredSignal
  · rcases hw : s.shop.waiting with _ | ⟨cid, rest⟩
    · simp [applyAction, hg, hw] at h
      subst h
      refine ⟨c1, c2, ?_, ?_, c5, c6, c7, c8, c9, c10⟩
      · intro cid hcid
        simp at hcid
      · have := c4
        rw [hg] at this
        simpa [midCutFlag] using this
    · simp [applyAction, hg, hw] at h
      subst h
      refine ⟨?_, ?_, ?_, ?_, ?_, c6, c7, c8, c9, c10⟩
      · have := c1
        rw [hw] at this
        simp at this ⊢
        omega
      · intro c hc
        simp
      · intro cid2 hcid
        simp at hcid
        simp [hcid]
      · have := c4
        rw [hw, hg] at this
        simp [midCutFlag] at this ⊢
        omega
      · rw [c5, hw]
        simp
  · simp [applyAction, hg] at h

theorem sysInv_barberFinish (s s2 : Sys) (h : applyAction .barberFinish s = some s2)
    (inv : SysInv s) : SysInv s2 := by
  obtain ⟨c1, c2, c3, c4, c5, c6, c7, c8, c9, c10⟩ := inv
  rcases hpc : s.barberPC with _ | _ | cid
  · simp [applyAction, hpc] at h
  · simp [applyAction, hpc] at h
  · simp [applyAction, hpc] at h
    subst h
    have hcur : s.shop.current_customer = some cid := c3 cid hpc
    refine ⟨?_, ?_, ?_, ?_, ?_, c6, c7, c8, c9, c10⟩
    · simpa [finishCut, hcur] using c1
    · intro c hc
      simp [finishCut, hcur] at hc
    · intro cid2 hcid
      simp at hcid
    · have := c4
      rw [hpc] at this
      simp [midCutFlag] at this
      simp [finishCut, hcur, midCutFlag]
      omega
    · rw [c5]
      simp [finishCut, hcur]

theorem sysInv_step (a : Act) (s s2 : Sys) (h : applyAction a s = some s2) (inv : SysInv s) :
    SysInv s2 := by
  cases a with
  | spawn => exact sysInv_spawn s s2 h inv
  | admission c => exact sysInv_admission c s s2 h inv
  | signalArrival c => exact sysInv_signalArrival c s s2 h inv
  | customerAcquireReady c => exact sysInv_customerAcquireReady c s s2 h inv
  | customerStop c => exact sysInv_customerStop c s s2 h inv
  | barberTimeout => exact sysInv_barberTimeout s s2 h inv
  | barberAcquire => exact sysInv_barberAcquire s s2 h inv
  | barberDequeue => exact sysInv_barberDequeue s s2 h inv
  | barberFinish => exact sysInv_barberFinish s s2 h inv
  | setSpeed k => exact sysInv_setSpeed k s s2 h inv
  | raiseStop => exact sysInv_raiseStop s s2 h inv
  | tick => exact sysInv_tick s s2 h inv

theorem sysInv_run (acts : List Act) (s s2 : Sys) (h : run acts s = some s2)
    (inv : SysInv s) : SysInv s2 := by
  induction acts generalizing s with
  | nil =>
    simp [run] at h
    subst h
    exact inv
  | cons a acts ih =>
    rw [run] at h
    rcases ha : applyAction a s with _ | s1
    · rw [ha] at h
      simp at h
    · rw [ha] at h
      exact ih s1 h (sysInv_step a s s1 ha inv)

theorem sysInv_reaches (capacity : Nat) (cut_time : ℚ) (s : Sys)
    (h : Reaches capacity cut_time s) : SysInv s := by
  obtain ⟨acts, hacts⟩ := h
  exact sysInv_run acts _ s hacts (sysInv_initSys capacity cut_time)

/-- Every atomic action other than an admission block and the barber's
dequeue block leaves capacity, the waiting queue and the left counter
unchanged. -/
theorem applyAction_frame (a : Act) (s s1 : Sys) (h : applyAction a s = some s1)
    (ha : ∀ c, a ≠ Act.admission c) (hb : a ≠ .barberDequeue) :
    s1.shop.capacity = s.shop.capacity ∧ s1.shop.waiting = s.shop.waiting ∧
      s1.shop.left = s.shop.left := by
  cases a with
  | spawn =>
    by_cases hs : s.stop_event
    · simp [applyAction, hs] at h
    · simp [applyAction, hs] at h
      subst h
      exact ⟨rfl, rfl, rfl⟩
  | admission c => exact absurd rfl (ha c)
  | signalArrival c =>
    by_cases hc : custPC s.customers c = some .admittedPreSignal
    · simp [applyAction, hc] at h
      subst h
      exact ⟨rfl, rfl, rfl⟩
    · simp [applyAction, hc] at h
  | customerAcquireReady c =>
    by_cases hc : custPC s.customers c = some .waitingForReady ∧ 0 < s.barber_sem
    · simp [applyAction, hc] at h
      subst h
      exact ⟨rfl, rfl, rfl⟩
    · simp [applyAction, hc] at h
  | customerStop c =>
    by_cases hc : custPC s.customers c = some .waitingForReady ∧ s.stop_event = true
    · simp [applyAction, hc] at h
      subst h
      exact ⟨rfl, rfl, rfl⟩
    · simp [applyAction, hc] at h
  | barberTimeout =>
    by_cases hg : s.barberPC = .atLoop ∧ s.stop_event = false ∧ s.customers_sem = 0
    · simp [applyAction, hg] at h
      subst h
      unfold barberTimeoutUpdate
      split
      · exact ⟨rfl, rfl, rfl⟩
      · exact ⟨rfl, rfl, rfl⟩
    · simp [applyAction, hg] at h
  | barberAcquire =>
    by_cases hg : s.barberPC = .atLoop ∧ s.stop_event = false ∧ 0 < s.customers_sem
    · simp [applyAction, hg] at h
      subst h
      exact ⟨rfl, rfl, rfl⟩
    · simp [applyAction, hg] at h
  | barberDequeue => exact absurd rfl hb
  | barberFinish =>
    rcases hpc : s.barberPC with _ | _ | cid
    · simp [applyAction, hpc] at h
    · simp [applyAction, hpc] at h
    · simp [applyAction, hpc] at h
      subst h
      unfold finishCut
      split
      · exact ⟨rfl, rfl, rfl⟩
      · exact ⟨rfl, rfl, rfl⟩
  | setSpeed k =>
    by_cases hk : 1 ≤ k ∧ k ≤ 5
    · simp [applyAction, hk] at h
      subst h
      exact ⟨rfl, rfl, rfl⟩
    · simp [applyAction, hk] at h
  | raiseStop =>
    simp [applyAction] at h
    subst h
    exact ⟨rfl, rfl, rfl⟩
  | tick =>
    simp [applyAction] at h
    subst h
    exact ⟨rfl, rfl, rfl⟩

/-- In a run containing no barber dequeue, the queue length and the left
counter are determined by the number of admission blocks alone: the queue
fills to capacity and every further admission increments left. -/
theorem run_no_dequeue (acts : List Act) (s s2 : Sys)
    (h : run acts s = some s2)
    (hnd : ∀ a ∈ acts, a ≠ Act.barberDequeue)
    (hle : s.shop.waiting.length ≤ s.shop.capacity) :
    s2.shop.capacity = s.shop.capacity ∧
    s2.shop.waiting.length = min (s.shop.waiting.length + admissionCount acts) s.shop.capacity ∧
    s2.shop.left = s.shop.left + (s.shop.waiting.length + admissionCount acts - s.shop.capacity) := by
  induction acts generalizing s with
  | nil =>
    simp [run] at h
    subst h
    simp [admissionCount]
    omega
  | cons a acts ih =>
    rw [run] at h
    rcases ha : applyAction a s with _ | s1
    · rw [ha] at h
      simp at h
    · rw [ha] at h
      have hndtl : ∀ b ∈ acts, b ≠ Act.barberDequeue :=
        fun b hbm => hnd b (List.mem_cons_of_mem a hbm)
      by_cases hca : ∃ c, a = Act.admission c
      · obtain ⟨c, rfl⟩ := hca
        by_cases hc : custPC s.customers c = some .atAdmission
        · by_cases hlen : s.shop.waiting.length < s.shop.capacity
          · simp [applyAction, hc, customerAdmission, hlen] at ha
            subst ha
            have H := ih _ h hndtl (by simp; omega)
            simp at H
            simp [admissionCount]
            omega
          · simp [applyAction, hc, customerAdmission, hlen] at ha
            subst ha
            have H := ih _ h hndtl (by simpa using hle)
            simp at H
            simp [admissionCount]
            omega
        · simp [applyAction, hc] at ha
      · have hnadm : ∀ c, a ≠ Act.admission c := fun c hcc => hca ⟨c, hcc⟩
        obtain ⟨F1, F2, F3⟩ :=
          applyAction_frame a s s1 ha hnadm (hnd a (List.mem_cons_self a acts))
        have H := ih s1 h hndtl (by rw [F2, F1]; exact hle)
        have hlen1 : s1.shop.waiting.length = s.shop.waiting.length := by rw [F2]
        have hac : admissionCount (a :: acts) = admissionCount acts := by
          cases a
          case admission c => exact absurd rfl (hnadm c)
          all_goals rfl
        rw [hac]
        rw [F1, hlen1, F3] at H
        exact H

/-- C1: For every reachable state of the shop, the waiting queue length
satisfies 0 ≤ len(waiting) ≤ capacity: a customer appends only after a
locked check that len(waiting) < capacity, and the barber only removes
from the front, so no operation ever pushes the queue past capacity or
below zero. -/
theorem claim_C1_capacity_bound (capacity : Nat) (cut_time : ℚ) (s : Sys)
    (h : Reaches capacity cut_time s) :
    0 ≤ s.shop.waiting.length ∧ s.shop.waiting.length ≤ s.shop.capacity :=
  ⟨Nat.zero_le _, (sysInv_reaches capacity cut_time s h).cap_bound⟩

/-- Witness for C1: the state of the default configuration after one
customer is spawned and admitted. -/
theorem claim_C1_capacity_bound_witness :
    0 ≤ c1sys.shop.waiting.length ∧ c1sys.shop.waiting.length ≤ c1sys.shop.capacity :=
  claim_C1_capacity_bound 5 (8 / 5) c1sys ⟨c1acts, rfl⟩

/-- C2: Admission is decided by a single atomic locked check-and-append;
with the barber never dequeuing, a run whose admission blocks number
capacity + 1 ends with exactly capacity customers in the waiting queue
(admitted) and exactly one rejection counted in left, regardless of how
the actions interleave. -/
theorem claim_C2_rejection_correctness (capacity : Nat) (cut_time : ℚ)
    (acts : List Act) (s : Sys)
    (h : run acts (initSys capacity cut_time) = some s)
    (hnd : ∀ a ∈ acts, a ≠ Act.barberDequeue)
    (hcount : admissionCount acts = capacity + 1) :
    s.shop.waiting.length = capacity ∧ s.shop.left = 1 := by
  have H := run_no_dequeue acts _ s h hnd (by simp [initSys, ShopState.init])
  simp [initSys, ShopState.init, hcount] at H
  omega

/-- Witness for C2: capacity 1, two customers spawned and deciding, no
dequeue; one seat filled and one rejection. -/
theorem claim_C2_rejection_correctness_witness :
    c2sys.shop.waiting.length = 1 ∧ c2sys.shop.left = 1 :=
  claim_C2_rejection_correctness 1 1 c2acts c2sys rfl (by decide) (by decide)

/-- C3 counterexample: the claim that served + left equals the number of
spawned customers as soon as every customer unit is terminal is false on
the code: if shutdown is raised while an admitted customer is waiting, its
thread exits without touching either counter.  In the concrete reachable
state c3sys every spawned customer thread has terminated, yet
served + left = 0 while one customer was spawned. -/
theorem claim_C3_counterexample :
    Reaches 1 1 c3sys ∧
    countPC c3sys.customers .done = c3sys.customers.length ∧
    c3sys.shop.served + c3sys.shop.left ≠ c3sys.customers.length :=
  ⟨⟨c3acts, rfl⟩, by decide, by decide⟩

/-- C3 amended: in every reachable state in which all spawned customers
have passed their admission decision, the waiting queue is empty and no
cut is in progress, served + left equals the total number of customers
ever spawned (customers stranded in the queue or chair by a shutdown are
counted by neither counter until dequeued and finished). -/
theorem claim_C3_conservation_amended (capacity : Nat) (cut_time : ℚ) (s : Sys)
    (h : Reaches capacity cut_time s)
    (hdec : countPC s.customers .atAdmission = 0)
    (hq : s.shop.waiting = [])
    (hcut : midCutFlag s.barberPC = 0) :
    s.shop.served + s.shop.left = s.customers.length := by
  have H := (sysInv_reaches capacity cut_time s h).conservation
  simp [hdec, hq, hcut] at H
  omega

/-- Witness for the amended C3: capacity 1, one customer served to
completion and one rejected; served + left = 2 = customers spawned. -/
theorem claim_C3_conservation_amended_witness :
    c3wsys.shop.served + c3wsys.shop.left = c3wsys.customers.length :=
  claim_C3_conservation_amended 1 1 c3wsys ⟨c3wacts, rfl⟩ (by decide) (by decide) (by decide)

/-- C4 counterexample: the claimed equivalence (currentCustomer non-null
iff barberStatus = Cutting in every lock-released state) is false on the
code: after the finish block completes a cut while another customer waits,
barber_status is cutting and current_customer is none at a lock-released
point.  c4sys is such a reachable state. -/
theorem claim_C4_counterexample :
    Reaches 2 1 c4sys ∧
    c4sys.shop.barber_status = .cutting ∧
    c4sys.shop.current_customer = none :=
  ⟨⟨c4acts, rfl⟩, by decide, by decide⟩

/-- C4 amended: one direction of the claimed equivalence does hold in
every reachable lock-released state: whenever currentCustomer is non-null
the barber status is Cutting.  The converse fails between finishing one
cut with customers still waiting and dequeuing the next (see the
counterexample). -/
theorem claim_C4_current_implies_cutting (capacity : Nat) (cut_time : ℚ)
    (s : Sys) (c : Nat)
    (h : Reaches capacity cut_time s)
    (hc : s.shop.current_customer = some c) :
    s.shop.barber_status = .cutting :=
  (sysInv_reaches capacity cut_time s h).cur_cutting c hc

/-- Witness for the amended C4: mid-haircut state with customer 1 in the
chair. -/
theorem claim_C4_current_implies_cutting_witness :
    c4wsys.shop.barber_status = .cutting :=
  claim_C4_current_implies_cutting 2 1 c4wsys 1 ⟨c4wacts, rfl⟩ (by decide)

/-- C5: customers are served in strict FIFO order of admission: in any
reachable state, if A was admitted (appended to the queue under the lock)
strictly before B — positions i < j of the admission history — and both
have been dequeued into the chair, then A occupies a strictly earlier
position of the dequeue history than B. -/
theorem claim_C5_fifo (capacity : Nat) (cut_time : ℚ) (s : Sys) (A B i j : Nat)
    (h : Reaches capacity cut_time s) (hij : i < j)
    (hA : s.admissionOrder[i]? = some A) (hB : s.admissionOrder[j]? = some B)
    (_hAd : A ∈ s.dequeueOrder) (hBd : B ∈ s.dequeueOrder) :
    ∃ i2 j2 : Nat, i2 < j2 ∧ s.dequeueOrder[i2]? = some A ∧ s.dequeueOrder[j2]? = some B := by
  have inv := sysInv_reaches capacity cut_time s h
  obtain ⟨k, hk, hkB⟩ := List.getElem_of_mem hBd
  have hkB2 : s.dequeueOrder[k]? = some B := by
    rw [List.getElem?_eq_getElem hk, hkB]
  have hadmk : s.admissionOrder[k]? = some B := by
    rw [inv.adm_eq, List.getElem?_append_left hk]
    exact hkB2
  have hjlen : j < s.admissionOrder.length := (List.getElem?_eq_some.mp hB).1
  have hjk : j = k := List.getElem?_inj hjlen inv.adm_nodup (hB.trans hadmk.symm)
  have hilen : i < s.dequeueOrder.length := by omega
  have hiA : s.dequeueOrder[i]? = some A := by
    have h2 := hA
    rw [inv.adm_eq, List.getElem?_append_left hilen] at h2
    exact h2
  refine ⟨i, j, hij, hiA, ?_⟩
  rw [hjk]
  exact hkB2

/-- Witness for C5: customers 1 and 2 admitted in that order and both
served; 1 precedes 2 in the dequeue history. -/
theorem claim_C5_fifo_witness :
    ∃ i2 j2 : Nat, i2 < j2 ∧ c5sys.dequeueOrder[i2]? = some 1 ∧ c5sys.dequeueOrder[j2]? = some 2 :=
  claim_C5_fifo 2 1 c5sys 1 2 0 1 ⟨c5acts, rfl⟩ (by decide) (by decide) (by decide)
    (by decide) (by decide)

/-- C6: haircut completion is guarded by an id-equality check: under the
lock, if current_customer still equals the id just served then
current_customer and haircut_start_time are cleared, served is incremented
by exactly one and barber_status becomes sleeping when the queue is empty
and cutting otherwise; on a mismatch the completion is silently skipped
and the state is returned completely unchanged. -/
theorem claim_C6_finish_guard (shop : ShopState) (cid : Nat) :
    (shop.current_customer = some cid →
      finishCut shop cid = { shop with
        current_customer := none
        haircut_start_time := none
        served := shop.served + 1
        barber_status := if shop.waiting.isEmpty then .sleeping else .cutting }) ∧
    (shop.current_customer ≠ some cid → finishCut shop cid = shop) := by
  constructor
  · intro h
    simp [finishCut, h]
  · intro h
    simp [finishCut, h]

/-- Witness for C6: a shop cutting customer 7 with customer 8 waiting;
finishing 7 increments served and keeps cutting, while finishing the
stale id 9 changes nothing. -/
theorem claim_C6_finish_guard_witness :
    (finishCut c6shop 7 = { c6shop with
      current_customer := none
      haircut_start_time := none
      served := c6shop.served + 1
      barber_status := if c6shop.waiting.isEmpty then .sleeping else .cutting }) ∧
    finishCut c6shop 9 = c6shop :=
  ⟨(claim_C6_finish_guard c6shop 7).1 rfl, (claim_C6_finish_guard c6shop 9).2 (by decide)⟩

/-- C7 counterexample: the claimed speed table relation is false for the
table {1: 2.0, 2: 1.0, 3: 0.6, 4: 0.4, 5: 0.25}: a single common baseline
b with fastest = 0.25 × b and slowest = 8 × b would force the slowest
interval to equal 32 times the fastest one, but the fastest interval is
0.25 and the slowest is 2.0, which is 8 times the fastest, not 32. -/
theorem claim_C7_counterexample :
    intervalFor 5 = 1 / 4 ∧ intervalFor 1 = 2 ∧ intervalFor 1 ≠ 32 * intervalFor 5 := by
  refine ⟨?_, ?_, ?_⟩ <;> norm_num [intervalFor, lookupRat, speed_to_interval]

/-- C7 amended: the generator's fixed lookup table has exactly the five
speed levels 1-5; for the common baseline interval 1.0 (speed level 2's
interval) the fastest level's interval is 0.25 × baseline and the slowest
level's interval is 2 × baseline — equivalently 8 × the fastest level's
interval — and the generator reads arrival_speed fresh under the lock each
tick, so a speed change takes effect on the next tick. -/
theorem claim_C7_speed_table_amended :
    speed_to_interval.map Prod.fst = [1, 2, 3, 4, 5] ∧
    intervalFor 5 = 1 / 4 * intervalFor 2 ∧
    intervalFor 1 = 2 * intervalFor 2 ∧
    intervalFor 1 = 8 * intervalFor 5 ∧
    (∀ (s s2 : Sys) (k : Nat), applyAction (.setSpeed k) s = some s2 →
      genTickInterval s2 = intervalFor k) := by
  refine ⟨by decide, ?_, ?_, ?_, ?_⟩
  · norm_num [intervalFor, lookupRat, speed_to_interval]
  · norm_num [intervalFor, lookupRat, speed_to_interval]
  · norm_num [intervalFor, lookupRat, speed_to_interval]
  intro s s2 k h
  by_cases hk : 1 ≤ k ∧ k ≤ 5
  · simp [applyAction, hk] at h
    subst h
    rfl
  · simp [applyAction, hk] at h

/-- Witness for the amended C7: setting speed level 5 makes the next tick
use the level-5 interval. -/
theorem claim_C7_speed_table_amended_witness :
    genTickInterval c7sys2 = intervalFor 5 :=
  claim_C7_speed_table_amended.2.2.2.2 (initSys 1 1) c7sys2 5 rfl

/-- C8: a spurious wakeup of the barber is a pure no-op: whenever the
barber holds an acquired arrival signal but finds the queue empty under
the lock, the step returns to the loop top with the entire shared state,
both semaphores, the customer threads and the ghost history unchanged —
only the barber's program counter moves. -/
theorem claim_C8_spurious_noop (s : Sys)
    (h1 : s.barberPC = .acquiredSignal)
    (h2 : s.shop.waiting = []) :
    applyAction .barberDequeue s = some { s with barberPC := .atLoop } := by
  simp [applyAction, h1, h2]

/-- Witness for C8: the concrete spurious-wakeup state. -/
theorem claim_C8_spurious_noop_witness :
    applyAction .barberDequeue c8sys = some { c8sys with barberPC := .atLoop } :=
  claim_C8_spurious_noop c8sys rfl rfl

/-- C9: a freshly constructed shop state, for any capacity and cut
duration, has an empty waiting queue, served = 0, left = 0, a sleeping
barber, no current customer, no cut start time, and arrival speed 3 (the
middle of the five levels), with capacity and cut duration stored as
given. -/
theorem claim_C9_initial_state (capacity : Nat) (cut_time : ℚ) :
    (ShopState.init capacity cut_time).waiting = [] ∧
    (ShopState.init capacity cut_time).served = 0 ∧
    (ShopState.init capacity cut_time).left = 0 ∧
    (ShopState.init capacity cut_time).barber_status = .sleeping ∧
    (ShopState.init capacity cut_time).current_customer = none ∧
    (ShopState.init capacity cut_time).haircut_start_time = none ∧
    (ShopState.init capacity cut_time).arrival_speed = 3 ∧
    (ShopState.init capacity cut_time).capacity = capacity ∧
    (ShopState.init capacity cut_time).cut_time = cut_time :=
  ⟨rfl, rfl, rfl, rfl, rfl, rfl, rfl, rfl, rfl⟩

/-- C10: a rejected customer's entire effect on the shared state is
incrementing left by one; the queue, the served counter, the barber
fields, the configuration fields and both semaphores are unchanged, the
customer terminates, and it can never emit an arrival signal, so the
barber is never woken on behalf of a customer that was turned away. -/
theorem claim_C10_rejection_frame (c : Nat) (s s2 : Sys)
    (hfull : ¬ s.shop.waiting.length < s.shop.capacity)
    (h : applyAction (.admission c) s = some s2) :
    rejectionFrame s s2 c := by
  by_cases hc : custPC s.customers c = some .atAdmission
  · simp [applyAction, hc, customerAdmission, hfull] at h
    subst h
    have hdone := custPC_setPC_self s.customers c _ CustomerPC.done hc
    refine ⟨rfl, rfl, rfl, rfl, rfl, rfl, rfl, rfl, rfl, rfl, rfl, hdone, ?_⟩
    simp [applyAction, hdone]
  · simp [applyAction, hc] at h

/-- Witness for C10: zero capacity, customer 1 is rejected. -/
theorem claim_C10_rejection_frame_witness : rejectionFrame c10sys c10sys2 1 :=
  claim_C10_rejection_frame 1 c10sys c10sys2 (by decide) rfl
